import Mathlib

/-
Shallow embedding of src/src/graphnet/models/graphs/graph_definition.py
(class GraphDefinition) and verification of its specification.

Modelling conventions:
* Numeric values are exact rationals; the torch dtype is carried as a tag on
  tensors (precision of the cast itself is not at stake in any property below).
* A numpy 2-D array is a column count (shape[1]) plus its rows; arrays live in
  an explicit store (heap) so that in-place mutation of a caller-visible array
  is observable.
* The external delegates (Detector, NodeDefinition, EdgeDefinition) and the
  base Model machinery are out of scope per the spec and are modelled as the
  functions this component consumes.
* Logging (warning_once / debug) is an external side effect; the debug
  diagnostics of _add_truth are returned explicitly because the spec makes
  claims about them.
-/

set_option autoImplicit false

namespace Graphnet

/-- Numeric dtype tag for node tensors (e.g. torch.float, torch.double). -/
inductive DType where
  | float
  | double
deriving DecidableEq, Inhabited

/-- A 2-D numeric table, as a list of rows. -/
abbrev Mat := List (List Rat)

/-- A numpy 2-D array: explicit column count (shape[1]) plus the row data. -/
structure NpArray where
  cols : Nat
  data : Mat
deriving DecidableEq, Inhabited

/-- A heap of numpy arrays; positions model Python object identity, so that
in-place mutation of a caller-supplied array is observable after a call. -/
abbrev Store := List NpArray

/-- The array object a reference designates. -/
def arrAt (st : Store) (ref : Nat) : NpArray := st.getD ref ⟨0, []⟩

/-- Values attachable as named fields of a torch_geometric Data object. -/
inductive GValue where
  | tensor0 (v : Rat)
  | intScalar (n : Int)
  | tensor1 (v : List Rat)
  | tensor2 (dt : DType) (m : Mat)
  | str (s : String)
  | strList (l : List String)
deriving DecidableEq, Inhabited

/-- A torch_geometric Data object: one attribute store. The node-feature
tensor is the attribute named "x", exactly as in Data, where data.x and
the item access data["x"] address the same slot. A later write to a key
shadows an earlier one. -/
structure PygData where
  store : List (String × GValue)
deriving DecidableEq, Inhabited

/-- Assignment graph[k] = v (also graph.k = v for a data attribute). -/
def setField (g : PygData) (k : String) (v : GValue) : PygData :=
  ⟨(k, v) :: g.store⟩

/-- Attribute lookup graph[k]; none when the attribute was never written. -/
def getField (g : PygData) (k : String) : Option GValue :=
  (g.store.find? (fun p => p.1 == k)).map (fun p => p.2)

/-- A Data object with no attributes set. -/
def emptyGraph : PygData := ⟨[]⟩

/-- The node feature matrix graph.x, when present as a 2-D tensor. -/
def xMat (g : PygData) : Mat :=
  match getField g "x" with
  | some (.tensor2 _ m) => m
  | _ => []

/-- Modelled from the spec: numpy.random.default_rng / Generator.normal are
external library primitives, not code of this repository. Only what the spec
relies on is modelled: an integer seed deterministically initializes the
generator state, absence of a seed draws the state from system entropy
(made an explicit input here), and each Gaussian sample is a deterministic
function of the current state, which it advances. The concrete stream below
is a small linear-congruential stand-in for PCG64. -/
structure Rng where
  state : Nat
deriving DecidableEq, Inhabited

/-- Deterministic generator initialization from an integer seed. -/
def defaultRng (seed : Nat) : Rng := ⟨seed % 65537⟩

/-- Generator initialization from system entropy (no seed supplied). -/
def defaultRngEntropy (entropy : Nat) : Rng := ⟨(entropy + 1) % 65537⟩

/-- Advance the generator state by one draw. -/
def rngStep (r : Rng) : Rng := ⟨(r.state * 75 + 74) % 65537⟩

/-- The standard-normal value of the current state (stand-in stream). -/
def rngStd (r : Rng) : Rat := ((r.state % 201 : Nat) : Rat) / 100 - 1

/-- One sample of Generator.normal: loc + scale * (standard draw). -/
def rngNormal1 (r : Rng) (loc scale : Rat) : Rat × Rng :=
  (loc + scale * rngStd r, rngStep r)

/-- One row of samples of Generator.normal with per-column scales. -/
def rngNormalRow : Rng → List Rat → List Rat → List Rat × Rng
  | r, [], _ => ([], r)
  | r, _ :: _, [] => ([], r)
  | r, l :: ls, s :: ss =>
    let p := rngNormal1 r l s
    let q := rngNormalRow p.2 ls ss
    (p.1 :: q.1, q.2)

/-- Generator.normal(loc, scale) for a 2-D loc broadcast against a 1-D
scale vector: row-major sampling, advancing the state per element. -/
def rngNormalMat (r : Rng) (scales : List Rat) : Mat → Mat × Rng
  | [] => ([], r)
  | row :: rows =>
    let p := rngNormalRow r row scales
    let q := rngNormalMat p.2 scales rows
    (p.1 :: q.1, q.2)

/-- The seed argument of GraphDefinition.__init__: an int, a numpy
Generator, or a value of any other type. -/
inductive SeedArg where
  | int (n : Nat)
  | gen (g : Rng)
  | other
deriving Inhabited

/-- The member state a GraphDefinition instance holds after __init__.
The attribute _loss_weight_default_value, which _add_loss_weights reads but
which is never assigned anywhere in the class, is modelled as an Option that
__init__ leaves at none (a Python attribute that does not exist; reading it
raises AttributeError). Likewise _perturbation_cols is only assigned when a
perturbation dict is given, hence an Option. -/
structure GraphDefinition where
  detectorStandardize : Mat → List String → Mat
  nodeDefForward : Mat → PygData × List String
  edgeDef : Option (PygData → PygData)
  inputFeatureNames : List String
  dtype : DType
  perturbationDict : Option (List (String × Rat))
  perturbationCols : Option (List Nat)
  rng : Rng
  nbInputs : Nat
  nbOutputs : Nat
  className : String
  lossWeightDefaultValueAttr : Option Rat
deriving Inhabited

/-- The arguments of GraphDefinition.__init__ (delegates as the functions
this component consumes; entropy is the system entropy consumed when no
seed is supplied). -/
structure InitArgs where
  detectorFeatureMapKeys : List String
  detectorStandardize : Mat → List String → Mat
  nodeDefNbOutputs : Nat
  nodeDefForward : Mat → PygData × List String
  edgeDef : Option (PygData → PygData)
  inputFeatureNames : Option (List String)
  dtype : DType
  perturbationDict : Option (List (String × Rat))
  seed : Option SeedArg
  entropy : Nat
  className : String
deriving Inhabited

/-- The input feature names __init__ resolves: the given list, or all
features of the Detector feature map, preserving its key order. -/
def resolvedNames (a : InitArgs) : List String :=
  match a.inputFeatureNames with
  | some ns => ns
  | none => a.detectorFeatureMapKeys

/-- Python list.index: position of the first occurrence of the key,
raising ValueError when the key is absent. -/
def pyListIndex : List String → String → Except String Nat
  | [], k => .error ("ValueError: " ++ k ++ " is not in list")
  | x :: xs, k =>
    if x = k then .ok 0 else (pyListIndex xs k).map (fun i => i + 1)

/-- The list comprehension of __init__ resolving each perturbation feature
name to its positional index in the input feature names; the first
unresolvable name raises. -/
def resolveCols (names : List String) : List (String × Rat) → Except String (List Nat)
  | [] => .ok []
  | kv :: kvs =>
    match pyListIndex names kv.1 with
    | .error e => .error e
    | .ok i =>
      match resolveCols names kvs with
      | .error e => .error e
      | .ok is => .ok (i :: is)

/-- The isinstance(dict) guard of __init__: _perturbation_cols is set only
when a perturbation dict was supplied. -/
def resolveColsOpt (names : List String) :
    Option (List (String × Rat)) → Except String (Option (List Nat))
  | some d => (resolveCols names d).map some
  | none => .ok none

/-- Seed handling of __init__: an int seeds default_rng deterministically, a
Generator is used as-is, any other value raises ValueError, and no seed
initializes default_rng from system entropy. -/
def resolveRng (seed : Option SeedArg) (entropy : Nat) : Except String Rng :=
  match seed with
  | some (.int n) => .ok (defaultRng n)
  | some (.gen g) => .ok g
  | some .other => .error "Invalid seed. Must be an int or a numpy Generator."
  | none => .ok (defaultRngEntropy entropy)

/-- GraphDefinition.__init__: resolve input feature names, resolve and cache
the perturbation column indices (before seed handling, as in the source),
resolve the generator, and record the member state. -/
def init (a : InitArgs) : Except String GraphDefinition :=
  match resolveColsOpt (resolvedNames a) a.perturbationDict with
  | .error e => .error e
  | .ok cols =>
    match resolveRng a.seed a.entropy with
    | .error e => .error e
    | .ok rng =>
      .ok { detectorStandardize := a.detectorStandardize
            nodeDefForward := a.nodeDefForward
            edgeDef := a.edgeDef
            inputFeatureNames := resolvedNames a
            dtype := a.dtype
            perturbationDict := a.perturbationDict
            perturbationCols := cols
            rng := rng
            nbInputs := (resolvedNames a).length
            nbOutputs := a.nodeDefNbOutputs
            className := a.className
            lossWeightDefaultValueAttr := none }

/-- Readable rendering of a name list inside an error message. -/
def fmtNames (l : List String) : String := String.intercalate ", " l

/-- The message of the feature-order assertion of _validate_input. -/
def orderErr (got expected : List String) : String :=
  "AssertionError: Order of node features in data are not the same as expected. Got " ++
    fmtNames got ++ " vs. " ++ fmtNames expected

/-- The message of the feature-count assertion of _validate_input. -/
def countErr (got expected : List String) (cls : String) : String :=
  "AssertionError: Input features (" ++ fmtNames got ++ ") is not what " ++ cls ++
    " was instatiated with (" ++ fmtNames expected ++ ")"

/-- The element-wise loop of _validate_input over the provided names,
asserting each equals the configured name at the same index. -/
def checkOrder (got expected : List String) : List String → List String → Except String Unit
  | [], _ => .ok ()
  | _ :: _, [] => .error "IndexError: list index out of range"
  | n :: ns, c :: cs =>
    if n = c then checkOrder got expected ns cs
    else .error (orderErr got expected)

/-- GraphDefinition._validate_input: shape[1] must equal the number of
provided names, that number must equal the configured count, and the names
must agree element-wise with the configured names. -/
def validate_input (gd : GraphDefinition) (arr : NpArray) (names : List String) :
    Except String Unit :=
  if arr.cols ≠ names.length then .error "AssertionError"
  else if names.length ≠ gd.inputFeatureNames.length then
    .error (countErr names gd.inputFeatureNames gd.className)
  else checkOrder names gd.inputFeatureNames names gd.inputFeatureNames

/-- Column selection input_features[:, cols]. -/
def colsOf (m : Mat) (cols : List Nat) : Mat :=
  m.map (fun row => cols.map (fun c => row.getD c 0))

/-- One row of the fancy-index assignment row[cols] = vals (a later
duplicate column index wins, as in numpy). -/
def setColsRow (row : List Rat) (cols : List Nat) (vals : List Rat) : List Rat :=
  (cols.zip vals).foldl (fun r cv => r.set cv.1 cv.2) row

/-- The fancy-index assignment input_features[:, cols] = samples, row by row. -/
def writeCols (cols : List Nat) : Mat → Mat → Mat
  | [], _ => []
  | _ :: _, [] => []
  | row :: rows, v :: vs => setColsRow row cols v :: writeCols cols rows vs

/-- GraphDefinition._perturb_input on the array value: when a perturbation
dict is configured, replace the cached columns by Gaussian samples centered
at their current values with the configured scales; otherwise return the
input unchanged. Also returns the advanced generator. -/
def perturb_input (gd : GraphDefinition) (m : Mat) : Mat × Rng :=
  match gd.perturbationDict with
  | some d =>
    let cols := gd.perturbationCols.getD []
    let scales := d.map (fun kv => kv.2)
    let p := rngNormalMat gd.rng scales (colsOf m cols)
    (writeCols cols m p.1, p.2)
  | none => (m, gd.rng)

/-- GraphDefinition._perturb_input at the store level: the fancy-index
assignment writes the perturbed values back into the caller's array object
(no copy is made); with no perturbation dict nothing is written. -/
def perturbStore (gd : GraphDefinition) (st : Store) (ref : Nat) : Store × Rng :=
  match gd.perturbationDict with
  | some _ =>
    let arr := arrAt st ref
    let p := perturb_input gd arr.data
    (st.set ref ⟨arr.cols, p.1⟩, p.2)
  | none => (st, gd.rng)

/-- The ValueError message of _add_loss_weights when the weight is negative
and no default was supplied. -/
def missingLossErr (c : String) : String :=
  "ValueError: At least one event is missing an entry in " ++ c ++
    " but loss_weight_default_value is None."

/-- The AttributeError raised when _add_loss_weights reads the member
_loss_weight_default_value, which __init__ never assigns. -/
def attrErr : String :=
  "AttributeError: GraphDefinition object has no attribute _loss_weight_default_value"

/-- GraphDefinition._add_loss_weights: when both a weight and a column name
are given, store the weight as a single-element column vector in the
configured dtype; a negative weight means the weight is missing, in which
case the code raises ValueError if no default was supplied, and otherwise
reads self._loss_weight_default_value (never assigned, hence an
AttributeError) instead of the supplied default. When weight or column is
absent, the graph is returned unchanged. -/
def add_loss_weights (gd : GraphDefinition) (g : PygData)
    (lossWeightColumn : Option String) (lossWeight : Option Rat)
    (lossWeightDefaultValue : Option Rat) : Except String PygData :=
  match lossWeight, lossWeightColumn with
  | some w, some c =>
    if w < 0 then
      match lossWeightDefaultValue with
      | none => .error (missingLossErr c)
      | some _ =>
        match gd.lossWeightDefaultValueAttr with
        | some v => .ok (setField g c (.tensor2 gd.dtype [[v]]))
        | none => .error attrErr
    else .ok (setField g c (.tensor2 gd.dtype [[w]]))
  | _, _ => .ok g

/-- A Python truth value: numeric, so torch.tensor(value) succeeds, or text,
so torch.tensor(value) raises TypeError. -/
inductive PyValue where
  | num (r : Rat)
  | str (s : String)
deriving DecidableEq, Inhabited

/-- type(value).__name__ for a truth value. -/
def pyTypeName : PyValue → String
  | .num _ => "float"
  | .str _ => "str"

/-- The attempted conversion torch.tensor(value): some tensor for a numeric
value, none (TypeError) for a text value. -/
def torchTensor? : PyValue → Option GValue
  | .num r => some (.tensor0 r)
  | .str _ => none

/-- The debug diagnostic _add_truth emits for a value it cannot convert. -/
def truthDiag (k tp : String) : String :=
  "Could not assign " ++ k ++ " with type " ++ tp ++ " as attribute to graph."

/-- The inner loop of _add_truth over one truth dictionary: attach each
convertible value, skip an unconvertible one and record its diagnostic. -/
def addTruthDict : PygData × List String → List (String × PyValue) → PygData × List String
  | acc, [] => acc
  | (g, logs), kv :: kvs =>
    match torchTensor? kv.2 with
    | some v => addTruthDict (setField g kv.1 v, logs) kvs
    | none => addTruthDict (g, logs ++ [truthDiag kv.1 (pyTypeName kv.2)]) kvs

/-- GraphDefinition._add_truth: iterate the truth dictionaries in order;
also returns the debug diagnostics emitted for skipped keys, in order. -/
def add_truth (g : PygData) (truthDicts : List (List (String × PyValue))) :
    PygData × List String :=
  truthDicts.foldl addTruthDict (g, [])

/-- GraphDefinition._add_custom_labels: attach each function's value under
its name, each function receiving the graph as built so far. -/
def add_custom_labels (g : PygData)
    (fns : List (String × (PygData → GValue))) : PygData :=
  fns.foldl (fun acc kf => setField acc kf.1 (kf.2 acc)) g

/-- Column extraction graph.x[:, i] (the detach only severs gradient
tracking, which is not modelled). -/
def column (m : Mat) (i : Nat) : List Rat := m.map (fun row => row.getD i 0)

/-- The enumerate loop of _add_features_individually: a feature named "x" is
skipped (with a one-time warning); every other name is attached as its own
column of the node tensor. -/
def addFeaturesGo (g : PygData) (idx : Nat) : List String → PygData
  | [] => g
  | nm :: nms =>
    if nm ≠ "x" then
      addFeaturesGo (setField g nm (.tensor1 (column (xMat g) idx))) (idx + 1) nms
    else
      addFeaturesGo g (idx + 1) nms

/-- GraphDefinition._add_features_individually: record the node feature
names in graph.features, then attach each non-reserved feature column. -/
def add_features_individually (g : PygData) (nodeFeatureNames : List String) : PygData :=
  addFeaturesGo (setField g "features" (.strList nodeFeatureNames)) 0 nodeFeatureNames

/-- The statement graph.x = graph.x.type(self.dtype): retag the node tensor
dtype (the NodeDefinition delegate contract guarantees a 2-D node tensor). -/
def castX (dt : DType) (g : PygData) : PygData :=
  match getField g "x" with
  | some (.tensor2 _ m) => setField g "x" (.tensor2 dt m)
  | _ => g

/-- The body of GraphDefinition.forward after validation and perturbation:
cast, standardize, build nodes, enforce dtype, record the pulse count,
attach edges, provenance, loss weight, truth labels, custom labels, the
per-feature fields and the class stamp. It performs no further store or
generator effects. -/
def forwardBody (gd : GraphDefinition) (arr : NpArray) (names : List String)
    (truthDicts : Option (List (List (String × PyValue))))
    (customLabelFunctions : Option (List (String × (PygData → GValue))))
    (lossWeightColumn : Option String) (lossWeight : Option Rat)
    (lossWeightDefaultValue : Option Rat) (dataPath : Option String) :
    Except String PygData :=
  let t := gd.detectorStandardize arr.data names
  let p := gd.nodeDefForward t
  let graph := castX gd.dtype p.1
  let graph := setField graph "n_pulses" (.intScalar (Int.ofNat t.length))
  let graph := match gd.edgeDef with
    | some f => f graph
    | none => graph
  let graph := match dataPath with
    | some dp => setField graph "dataset_path" (.str dp)
    | none => graph
  match add_loss_weights gd graph lossWeightColumn lossWeight lossWeightDefaultValue with
  | .error e => .error e
  | .ok graph1 =>
    let graph1 := match truthDicts with
      | some ds => (add_truth graph1 ds).1
      | none => graph1
    let graph1 := match customLabelFunctions with
      | some fs => add_custom_labels graph1 fs
      | none => graph1
    let graph1 := add_features_individually graph1 p.2
    .ok (setField graph1 "graph_definition" (.str gd.className))

/-- GraphDefinition.forward: validate the input (aborting before anything
else on failure), perturb the caller's array in place, then assemble the
graph. Returns the result together with the store and the generator as they
stand when the call returns or raises. -/
def forward (gd : GraphDefinition) (st : Store) (ref : Nat) (names : List String)
    (truthDicts : Option (List (List (String × PyValue))))
    (customLabelFunctions : Option (List (String × (PygData → GValue))))
    (lossWeightColumn : Option String) (lossWeight : Option Rat)
    (lossWeightDefaultValue : Option Rat) (dataPath : Option String) :
    Except String PygData × Store × Rng :=
  match validate_input gd (arrAt st ref) names with
  | .error e => (.error e, st, gd.rng)
  | .ok _ =>
    let p := perturbStore gd st ref
    (forwardBody gd (arrAt p.1 ref) names truthDicts customLabelFunctions
       lossWeightColumn lossWeight lossWeightDefaultValue dataPath, p.1, p.2)

/-- Eliminate a successful __init__: the column cache and the generator come
from their resolvers, the perturbation dict and resolved names are recorded,
and the member _loss_weight_default_value is never assigned. -/
theorem init_ok_elim {a : InitArgs} {gd : GraphDefinition} (h : init a = .ok gd) :
    resolveColsOpt (resolvedNames a) a.perturbationDict = .ok gd.perturbationCols ∧
    resolveRng a.seed a.entropy = .ok gd.rng ∧
    gd.perturbationDict = a.perturbationDict ∧
    gd.lossWeightDefaultValueAttr = none ∧
    gd.inputFeatureNames = resolvedNames a := by
  unfold init at h
  split at h
  · exact absurd h (by simp)
  · split at h
    · exact absurd h (by simp)
    · injection h with h
      subst h
      simp_all

/-- The element-wise name loop succeeds exactly on equal lists, given the
lengths already agree. -/
theorem checkOrder_ok_iff (g e : List String) (ns : List String) :
    ∀ cs : List String, ns.length = cs.length →
      (checkOrder g e ns cs = .ok () ↔ ns = cs) := by
  induction ns with
  | nil =>
    intro cs h
    cases cs with
    | nil => simp [checkOrder]
    | cons c cs => simp at h
  | cons n ns ih =>
    intro cs h
    cases cs with
    | nil => simp at h
    | cons c cs =>
      simp only [List.length_cons, Nat.add_right_cancel_iff] at h
      unfold checkOrder
      by_cases hnc : n = c
      · subst hnc
        rw [if_pos rfl, ih cs h]
        simp
      · rw [if_neg hnc]
        simp [hnc]

/-- C2: a call passes _validate_input exactly when the table's column count
equals the provided column-name count, that count equals the configured
input feature count, and each provided name equals the configured name at
the same position; hence any permutation, omission or count mismatch of
names fails the validation assertions. -/
theorem claim_C2_validate_input_iff (gd : GraphDefinition) (arr : NpArray)
    (names : List String) :
    validate_input gd arr names = .ok () ↔
      (arr.cols = names.length ∧ names.length = gd.inputFeatureNames.length ∧
        ∀ i : Nat, names[i]? = gd.inputFeatureNames[i]?) := by
  constructor
  · intro h
    unfold validate_input at h
    split at h
    · exact absurd h (by simp)
    · split at h
      · exact absurd h (by simp)
      · next h1 h2 =>
        have hc : arr.cols = names.length := not_ne_iff.mp h1
        have hlen : names.length = gd.inputFeatureNames.length := not_ne_iff.mp h2
        have heq : names = gd.inputFeatureNames :=
          (checkOrder_ok_iff names gd.inputFeatureNames names gd.inputFeatureNames hlen).mp h
        exact ⟨hc, hlen, fun i => by rw [heq]⟩
  · rintro ⟨h1, h2, h3⟩
    have heq : names = gd.inputFeatureNames := List.ext_getElem? h3
    unfold validate_input
    rw [if_neg (by simp [h1]), if_neg (by simp [h2])]
    exact (checkOrder_ok_iff names gd.inputFeatureNames names gd.inputFeatureNames h2).mpr heq

/-- C3: when validation fails, forward raises that very error before doing
anything else: no graph is produced, the caller's array store is untouched
and the random generator has not been advanced, so neither perturbation,
standardization, node or edge construction nor field attachment ran. -/
theorem claim_C3_fail_fast (gd : GraphDefinition) (st : Store) (ref : Nat)
    (names : List String) (td : Option (List (List (String × PyValue))))
    (cl : Option (List (String × (PygData → GValue)))) (lwc : Option String)
    (lw lwd : Option Rat) (dp : Option String) (e : String)
    (h : validate_input gd (arrAt st ref) names = .error e) :
    forward gd st ref names td cl lwc lw lwd dp = (.error e, st, gd.rng) := by
  unfold forward
  rw [h]

/-- A concrete configuration: detector with features f1, f2, a pass-through
standardizer, a pass-through node builder, no edges, no perturbation,
integer seed 7. -/
def a0 : InitArgs :=
  { detectorFeatureMapKeys := ["f1", "f2"]
    detectorStandardize := fun m _ => m
    nodeDefNbOutputs := 2
    nodeDefForward := fun m => (setField emptyGraph "x" (.tensor2 .float m), ["f1", "f2"])
    edgeDef := none
    inputFeatureNames := none
    dtype := .float
    perturbationDict := none
    seed := some (.int 7)
    entropy := 0
    className := "GraphDefinition" }

/-- The GraphDefinition instance a0 constructs. -/
def gd0 : GraphDefinition := ((init a0).toOption).getD default

theorem claim_C3_witness :
    forward gd0 [⟨2, [[1, 2]]⟩] 0 ["f1"] none none none none none none =
      (.error "AssertionError", [⟨2, [[1, 2]]⟩], gd0.rng) :=
  claim_C3_fail_fast gd0 [⟨2, [[1, 2]]⟩] 0 ["f1"] none none none none none none
    "AssertionError" rfl

/-- C1 (code bug): on a negative loss weight with a column name and a
supplied default, _add_loss_weights of any constructed GraphDefinition does
not store the supplied default; it reads the never-assigned member
_loss_weight_default_value and so raises AttributeError. At the claim's
example (loss_weight = -1, column "w", default 0.5) the call raises instead
of setting the "w" field to 0.5. -/
theorem claim_C1_loss_weight_default_bug (a : InitArgs) (gd : GraphDefinition)
    (g : PygData) (h : init a = .ok gd) :
    add_loss_weights gd g (some "w") (some (-1)) (some (1 / 2)) = .error attrErr := by
  have hattr : gd.lossWeightDefaultValueAttr = none := (init_ok_elim h).2.2.2.1
  simp only [add_loss_weights]
  rw [if_pos (by norm_num : (-1 : Rat) < 0), hattr]

theorem claim_C1_witness :
    add_loss_weights gd0 emptyGraph (some "w") (some (-1)) (some (1 / 2)) = .error attrErr :=
  claim_C1_loss_weight_default_bug a0 gd0 emptyGraph rfl

/-- C8: a negative loss weight with a column name but no default raises the
configuration ValueError naming the column; and whenever the weight or the
column name is absent, the graph is returned unchanged with no error and no
field attached. -/
theorem claim_C8_loss_weight_policy (gd : GraphDefinition) (g : PygData)
    (c : String) (w : Rat) (lwc : Option String) (lw lwd : Option Rat) :
    (w < 0 → add_loss_weights gd g (some c) (some w) none = .error (missingLossErr c)) ∧
    (lw = none ∨ lwc = none → add_loss_weights gd g lwc lw lwd = .ok g) := by
  constructor
  · intro hw
    simp only [add_loss_weights]
    rw [if_pos hw]
  · rintro (rfl | rfl)
    · cases lwc <;> simp [add_loss_weights]
    · cases lw <;> simp [add_loss_weights]

theorem claim_C8_witness :
    add_loss_weights gd0 emptyGraph (some "w") (some (-1)) none =
        .error (missingLossErr "w") ∧
    add_loss_weights gd0 emptyGraph none (some 1) (some 1) = .ok emptyGraph :=
  ⟨(claim_C8_loss_weight_policy gd0 emptyGraph "w" (-1) none none none).1 (by norm_num),
   (claim_C8_loss_weight_policy gd0 emptyGraph "w" (-1) none (some 1) (some 1)).2
     (Or.inr rfl)⟩

/-- The entry of a table at row i, column j. -/
def entry? (m : Mat) (i j : Nat) : Option Rat := (m[i]?).bind (fun r => r[j]?)

/-- A successful list.index points at an occurrence of the key. -/
theorem pyListIndex_ok_get :
    ∀ (names : List String) (k : String) (c : Nat),
      pyListIndex names k = .ok c → names[c]? = some k := by
  intro names
  induction names with
  | nil => intro k c h; simp [pyListIndex] at h
  | cons x xs ih =>
    intro k c h
    unfold pyListIndex at h
    by_cases hx : x = k
    · rw [if_pos hx] at h
      injection h with h
      subst h
      simp [hx]
    · rw [if_neg hx] at h
      cases hrec : pyListIndex xs k with
      | error e => rw [hrec] at h; exact absurd h (by simp [Except.map])
      | ok i =>
        rw [hrec] at h
        simp only [Except.map] at h
        injection h with h
        subst h
        simpa using ih k i hrec

/-- list.index of an absent key raises ValueError. -/
theorem pyListIndex_not_mem :
    ∀ (names : List String) (k : String), k ∉ names →
      pyListIndex names k = .error ("ValueError: " ++ k ++ " is not in list") := by
  intro names
  induction names with
  | nil => intro k _; rfl
  | cons x xs ih =>
    intro k hk
    have hx : x ≠ k := fun h => hk (h ▸ List.mem_cons_self x xs)
    have hk2 : k ∉ xs := fun h => hk (List.mem_cons_of_mem x h)
    unfold pyListIndex
    rw [if_neg hx, ih k hk2]
    rfl

/-- list.index of a present key succeeds. -/
theorem pyListIndex_mem :
    ∀ (names : List String) (k : String), k ∈ names →
      ∃ i, pyListIndex names k = .ok i := by
  intro names
  induction names with
  | nil => intro k hk; exact absurd hk (List.not_mem_nil k)
  | cons x xs ih =>
    intro k hk
    by_cases hx : x = k
    · exact ⟨0, by unfold pyListIndex; rw [if_pos hx]⟩
    · have hk2 : k ∈ xs := by
        rcases List.mem_cons.mp hk with h | h
        · exact absurd h.symm hx
        · exact h
      obtain ⟨i, hi⟩ := ih k hk2
      exact ⟨i + 1, by unfold pyListIndex; rw [if_neg hx, hi]; rfl⟩

/-- When some perturbation key is absent from the names, resolution raises. -/
theorem resolveCols_err (names : List String) :
    ∀ d : List (String × Rat), (∃ kv ∈ d, kv.1 ∉ names) →
      ∃ e, resolveCols names d = .error e := by
  intro d
  induction d with
  | nil =>
    rintro ⟨kv, hmem, -⟩
    exact absurd hmem (List.not_mem_nil kv)
  | cons kv kvs ih =>
    rintro ⟨kv2, hmem, hnot⟩
    rcases List.mem_cons.mp hmem with rfl | hmem2
    · refine ⟨"ValueError: " ++ kv2.1 ++ " is not in list", ?_⟩
      unfold resolveCols
      rw [pyListIndex_not_mem names kv2.1 hnot]
    · by_cases hhead : kv.1 ∈ names
      · obtain ⟨i, hi⟩ := pyListIndex_mem names kv.1 hhead
        obtain ⟨e, he⟩ := ih ⟨kv2, hmem2, hnot⟩
        refine ⟨e, ?_⟩
        unfold resolveCols
        rw [hi, he]
      · refine ⟨"ValueError: " ++ kv.1 ++ " is not in list", ?_⟩
        unfold resolveCols
        rw [pyListIndex_not_mem names kv.1 hhead]

/-- Resolution yields, position by position, an index of the key's
occurrence in the names. -/
theorem resolveCols_ok_get (names : List String) :
    ∀ (d : List (String × Rat)) (cols : List Nat),
      resolveCols names d = .ok cols →
      ∀ (i : Nat) (kv : String × Rat), d[i]? = some kv →
        ∃ c, cols[i]? = some c ∧ names[c]? = some kv.1 := by
  intro d
  induction d with
  | nil => intro cols h i kv hi; simp at hi
  | cons kv0 kvs ih =>
    intro cols h i kv hi
    unfold resolveCols at h
    cases h0 : pyListIndex names kv0.1 with
    | error e => rw [h0] at h; exact absurd h (by simp)
    | ok c0 =>
      rw [h0] at h
      cases h1 : resolveCols names kvs with
      | error e => rw [h1] at h; exact absurd h (by simp)
      | ok cs =>
        rw [h1] at h
        injection h with h
        subst h
        cases i with
        | zero =>
          simp only [List.getElem?_cons_zero, Option.some.injEq] at hi
          subst hi
          exact ⟨c0, by simp, pyListIndex_ok_get names kv0.1 c0 h0⟩
        | succ n =>
          simp only [List.getElem?_cons_succ] at hi
          obtain ⟨c, hc1, hc2⟩ := ih cs h1 n kv hi
          exact ⟨c, by simpa using hc1, hc2⟩

/-- Any cached column index is the index of some configured key. -/
theorem resolveCols_ok_mem (names : List String) :
    ∀ (d : List (String × Rat)) (cols : List Nat),
      resolveCols names d = .ok cols →
      ∀ c ∈ cols, ∃ kv ∈ d, names[c]? = some kv.1 := by
  intro d
  induction d with
  | nil =>
    intro cols h c hc
    simp only [resolveCols] at h
    injection h with h
    subst h
    exact absurd hc (List.not_mem_nil c)
  | cons kv0 kvs ih =>
    intro cols h c hc
    unfold resolveCols at h
    cases h0 : pyListIndex names kv0.1 with
    | error e => rw [h0] at h; exact absurd h (by simp)
    | ok c0 =>
      rw [h0] at h
      cases h1 : resolveCols names kvs with
      | error e => rw [h1] at h; exact absurd h (by simp)
      | ok cs =>
        rw [h1] at h
        injection h with h
        subst h
        rcases List.mem_cons.mp hc with rfl | hc2
        · exact ⟨kv0, List.mem_cons_self kv0 kvs, pyListIndex_ok_get names kv0.1 c h0⟩
        · obtain ⟨kv, hkv, hnm⟩ := ih cs h1 c hc2
          exact ⟨kv, List.mem_cons_of_mem kv0 hkv, hnm⟩

/-- Sampling preserves the number of rows. -/
theorem rngNormalMat_length (scales : List Rat) :
    ∀ (r : Rng) (rows : Mat), (rngNormalMat r scales rows).1.length = rows.length := by
  intro r rows
  induction rows generalizing r with
  | nil => rfl
  | cons row rows ih => simp [rngNormalMat, ih]

/-- Writing the sampled columns preserves the number of rows. -/
theorem writeCols_length (cols : List Nat) :
    ∀ rows vs : Mat, rows.length = vs.length →
      (writeCols cols rows vs).length = rows.length := by
  intro rows
  induction rows with
  | nil => intro vs _; rfl
  | cons row rows ih =>
    intro vs h
    cases vs with
    | nil => simp at h
    | cons v vs =>
      simp only [List.length_cons, Nat.add_right_cancel_iff] at h
      simp [writeCols, ih vs h]

/-- The written table, row by row. -/
theorem writeCols_getElem?_eq (cols : List Nat) :
    ∀ (rows vs : Mat) (i : Nat) (r v : List Rat),
      rows[i]? = some r → vs[i]? = some v →
      (writeCols cols rows vs)[i]? = some (setColsRow r cols v) := by
  intro rows
  induction rows with
  | nil => intro vs i r v h1 _; simp at h1
  | cons row rows ih =>
    intro vs i r v h1 h2
    cases vs with
    | nil => simp at h2
    | cons v0 vs =>
      cases i with
      | zero =>
        simp only [List.getElem?_cons_zero, Option.some.injEq] at h1 h2
        subst h1
        subst h2
        simp [writeCols]
      | succ n =>
        simp only [List.getElem?_cons_succ] at h1 h2
        simpa [writeCols] using ih vs n r v h1 h2

/-- A fold of element writes at indices other than j leaves entry j alone. -/
theorem foldl_set_getElem?_not_mem (j : Nat) :
    ∀ (cvs : List (Nat × Rat)) (r : List Rat),
      (∀ cv ∈ cvs, cv.1 ≠ j) →
      (cvs.foldl (fun r cv => r.set cv.1 cv.2) r)[j]? = r[j]? := by
  intro cvs
  induction cvs with
  | nil => intro r _; rfl
  | cons cv cvs ih =>
    intro r h
    have hcv : cv.1 ≠ j := h cv (List.mem_cons_self cv cvs)
    have h2 : ∀ cv2 ∈ cvs, cv2.1 ≠ j := fun cv2 hm => h cv2 (List.mem_cons_of_mem cv hm)
    simp only [List.foldl_cons]
    rw [ih (r.set cv.1 cv.2) h2, List.getElem?_set_ne hcv]

/-- The fancy-index assignment leaves a column outside cols alone. -/
theorem setColsRow_getElem?_not_mem (j : Nat) (cols : List Nat) (r v : List Rat)
    (h : j ∉ cols) : (setColsRow r cols v)[j]? = r[j]? := by
  unfold setColsRow
  exact foldl_set_getElem?_not_mem j (cols.zip v) r
    (fun cv hm hc => h (hc ▸ (List.of_mem_zip hm).1))

/-- C4: with no perturbation dict _perturb_input is the identity on the
table, so the values entering standardization equal the input values
exactly; and with a dict configured on a constructed GraphDefinition, every
column whose name is not a key of the dict is left untouched. -/
theorem claim_C4_perturb_frame (gd : GraphDefinition) (m : Mat) (a : InitArgs)
    (gd2 : GraphDefinition) (d : List (String × Rat)) (m2 : Mat) (nm : String)
    (i j : Nat) :
    (gd.perturbationDict = none → (perturb_input gd m).1 = m) ∧
    (init a = .ok gd2 → a.perturbationDict = some d →
      (resolvedNames a)[j]? = some nm → (∀ kv ∈ d, kv.1 ≠ nm) →
      entry? (perturb_input gd2 m2).1 i j = entry? m2 i j) := by
  constructor
  · intro h
    unfold perturb_input
    rw [h]
  · intro hinit hdict hj hnot
    obtain ⟨hc, -, hd2, -, -⟩ := init_ok_elim hinit
    rw [hdict] at hc
    simp only [resolveColsOpt] at hc
    cases hres : resolveCols (resolvedNames a) d with
    | error e => rw [hres] at hc; exact absurd hc (by simp [Except.map])
    | ok cols =>
      rw [hres] at hc
      simp only [Except.map] at hc
      injection hc with hc
      have hdgd : gd2.perturbationDict = some d := by rw [hd2, hdict]
      have hjnot : j ∉ cols := by
        intro hjc
        obtain ⟨kv, hkv, hnm⟩ := resolveCols_ok_mem (resolvedNames a) d cols hres j hjc
        rw [hj] at hnm
        injection hnm with hnm
        exact hnot kv hkv hnm.symm
      unfold perturb_input
      rw [hdgd, ← hc]
      simp only [Option.getD_some]
      have hlen : (rngNormalMat gd2.rng (d.map (fun kv => kv.2)) (colsOf m2 cols)).1.length
          = m2.length := by
        rw [rngNormalMat_length]
        simp [colsOf]
      unfold entry?
      cases hi : m2[i]? with
      | some r =>
        have hi2 : i < m2.length := by
          by_contra hlt
          rw [List.getElem?_eq_none_iff.mpr (Nat.le_of_not_lt hlt)] at hi
          exact absurd hi (by simp)
        have hi3 : i < (rngNormalMat gd2.rng (d.map (fun kv => kv.2))
            (colsOf m2 cols)).1.length := hlen ▸ hi2
        obtain ⟨v, hv⟩ : ∃ v, (rngNormalMat gd2.rng (d.map (fun kv => kv.2))
            (colsOf m2 cols)).1[i]? = some v :=
          ⟨_, List.getElem?_eq_getElem hi3⟩
        rw [writeCols_getElem?_eq cols m2 _ i r v hi hv]
        exact setColsRow_getElem?_not_mem j cols r v hjnot
      | none =>
        have hlt : m2.length ≤ i := List.getElem?_eq_none_iff.mp hi
        rw [List.getElem?_eq_none_iff.mpr
          (by rw [writeCols_length cols m2 _ hlen.symm]; exact hlt)]

/-- C5: two GraphDefinitions constructed with the same integer seed, the
same perturbation dict and the same resolved input feature names (the other
parameters may differ) produce identical perturbed values and identical
generator states on identical inputs. -/
theorem claim_C5_seed_determinism (a1 a2 : InitArgs) (gd1 gd2 : GraphDefinition)
    (s : Nat) (m : Mat) (h1 : init a1 = .ok gd1) (h2 : init a2 = .ok gd2)
    (hs1 : a1.seed = some (.int s)) (hs2 : a2.seed = some (.int s))
    (hdict : a1.perturbationDict = a2.perturbationDict)
    (hnames : resolvedNames a1 = resolvedNames a2) :
    perturb_input gd1 m = perturb_input gd2 m := by
  obtain ⟨hc1, hr1, hd1, -, -⟩ := init_ok_elim h1
  obtain ⟨hc2, hr2, hd2, -, -⟩ := init_ok_elim h2
  rw [hs1] at hr1
  rw [hs2] at hr2
  simp only [resolveRng] at hr1 hr2
  injection hr1 with hr1
  injection hr2 with hr2
  have e1 : gd1.perturbationDict = gd2.perturbationDict := by rw [hd1, hd2, hdict]
  have e2 : gd1.perturbationCols = gd2.perturbationCols := by
    rw [hnames, hdict] at hc1
    rw [hc1] at hc2
    injection hc2
  have e3 : gd1.rng = gd2.rng := by rw [← hr1, ← hr2]
  unfold perturb_input
  rw [e1, e2, e3]

/-- C9: a perturbation dict containing a key absent from the resolved input
feature names makes __init__ raise; when every key resolves, __init__
succeeds with the positional indices resolved and cached in
_perturbation_cols, position by position. -/
theorem claim_C9_perturbation_resolution (a : InitArgs) (d : List (String × Rat))
    (hd : a.perturbationDict = some d) :
    ((∃ kv ∈ d, kv.1 ∉ resolvedNames a) → ∃ e, init a = .error e) ∧
    (∀ gd : GraphDefinition, init a = .ok gd →
      ∃ cols : List Nat, gd.perturbationCols = some cols ∧
        resolveCols (resolvedNames a) d = .ok cols ∧
        ∀ (i : Nat) (kv : String × Rat), d[i]? = some kv →
          ∃ c : Nat, cols[i]? = some c ∧ (resolvedNames a)[c]? = some kv.1) := by
  constructor
  · intro hbad
    obtain ⟨e, he⟩ := resolveCols_err (resolvedNames a) d hbad
    refine ⟨e, ?_⟩
    unfold init
    have : resolveColsOpt (resolvedNames a) a.perturbationDict = .error e := by
      rw [hd]
      simp only [resolveColsOpt]
      rw [he]
      rfl
    rw [this]
  · intro gd hinit
    obtain ⟨hc, -, -, -, -⟩ := init_ok_elim hinit
    rw [hd] at hc
    simp only [resolveColsOpt] at hc
    cases hres : resolveCols (resolvedNames a) d with
    | error e => rw [hres] at hc; exact absurd hc (by simp [Except.map])
    | ok cols =>
      rw [hres] at hc
      simp only [Except.map] at hc
      injection hc with hc
      exact ⟨cols, hc.symm, rfl, resolveCols_ok_get (resolvedNames a) d cols hres⟩

/-- C10: on any call where validation passes and a perturbation dict is
configured, the caller's array object (the store slot the caller passed)
holds the perturbed table after forward returns: the perturbed values were
written back in place, not into a copy. -/
theorem claim_C10_in_place_mutation (gd : GraphDefinition) (st : Store)
    (ref : Nat) (names : List String)
    (td : Option (List (List (String × PyValue))))
    (cl : Option (List (String × (PygData → GValue))))
    (lwc : Option String) (lw lwd : Option Rat) (dp : Option String)
    (d : List (String × Rat))
    (hd : gd.perturbationDict = some d)
    (hv : validate_input gd (arrAt st ref) names = .ok ())
    (href : ref < st.length) :
    (forward gd st ref names td cl lwc lw lwd dp).2.1[ref]? =
      some ⟨(arrAt st ref).cols, (perturb_input gd (arrAt st ref).data).1⟩ := by
  unfold forward
  rw [hv]
  simp only [perturbStore, hd]
  exact List.getElem?_set_eq_of_lt _ href

/-- A configuration like a0 but perturbing feature f1 with scale 1, seed 3. -/
def aP : InitArgs := { a0 with perturbationDict := some [("f1", 1)], seed := some (.int 3) }

/-- The GraphDefinition instance aP constructs. -/
def gdP : GraphDefinition := ((init aP).toOption).getD default

/-- A configuration like aP with a different standardizer and class name. -/
def aQ : InitArgs :=
  { aP with
    detectorStandardize := fun m _ => m.map (fun r => r.map (fun v => v + 1))
    className := "OtherGraphDefinition" }

/-- The GraphDefinition instance aQ constructs. -/
def gdQ : GraphDefinition := ((init aQ).toOption).getD default

/-- A configuration whose perturbation dict names a feature the detector
does not have. -/
def aBad : InitArgs := { a0 with perturbationDict := some [("bogus", 1)] }

theorem claim_C4_witness :
    (perturb_input gd0 [[1, 2]]).1 = [[1, 2]] ∧
    entry? (perturb_input gdP [[1, 2]]).1 0 1 = entry? [[1, 2]] 0 1 :=
  ⟨(claim_C4_perturb_frame gd0 [[1, 2]] aP gdP [("f1", 1)] [[1, 2]] "f2" 0 1).1 rfl,
   (claim_C4_perturb_frame gd0 [[1, 2]] aP gdP [("f1", 1)] [[1, 2]] "f2" 0 1).2
     rfl rfl rfl (by decide)⟩

theorem claim_C5_witness :
    perturb_input gdP [[1, 2]] = perturb_input gdQ [[1, 2]] :=
  claim_C5_seed_determinism aP aQ gdP gdQ 3 [[1, 2]] rfl rfl rfl rfl rfl rfl

theorem claim_C9_witness :
    (∃ e, init aBad = .error e) ∧
    (∃ cols : List Nat, gdP.perturbationCols = some cols ∧
      resolveCols (resolvedNames aP) [("f1", 1)] = .ok cols ∧
      ∀ (i : Nat) (kv : String × Rat), [("f1", 1)][i]? = some kv →
        ∃ c : Nat, cols[i]? = some c ∧ (resolvedNames aP)[c]? = some kv.1) :=
  ⟨(claim_C9_perturbation_resolution aBad [("bogus", 1)] rfl).1
     ⟨("bogus", 1), by simp, by decide⟩,
   (claim_C9_perturbation_resolution aP [("f1", 1)] rfl).2 gdP rfl⟩

theorem claim_C10_witness :
    (forward gdP [⟨2, [[1, 2]]⟩] 0 ["f1", "f2"] none none none none none none).2.1[0]? =
      some ⟨2, (perturb_input gdP [[1, 2]]).1⟩ :=
  claim_C10_in_place_mutation gdP [⟨2, [[1, 2]]⟩] 0 ["f1", "f2"] none none none none
    none none [("f1", 1)] rfl rfl (by decide)

/-- Reading the key just written. -/
theorem getField_setField_eq (g : PygData) (k : String) (v : GValue) :
    getField (setField g k v) k = some v := by
  simp [getField, setField]

/-- Writing one key does not change another. -/
theorem getField_setField_ne (g : PygData) (k k2 : String) (v : GValue) (h : k ≠ k2) :
    getField (setField g k v) k2 = getField g k2 := by
  simp [getField, setField, List.find?_cons, h]

/-- Concatenation of the truth dictionaries in iteration order. -/
def flatDicts : List (List (String × PyValue)) → List (String × PyValue)
  | [] => []
  | d :: ds => d ++ flatDicts ds

/-- The value the truth loop leaves for a key, given the value so far: scan
the entries in order, a numeric entry for the key overwrites, a text entry
for the key is skipped, other keys are ignored. -/
def lastNumAux (k : String) : Option Rat → List (String × PyValue) → Option Rat
  | acc, [] => acc
  | acc, kv :: kvs =>
    lastNumAux k
      (if kv.1 = k then
        match kv.2 with
        | .num r => some r
        | .str _ => acc
      else acc) kvs

/-- The last numeric value the dictionaries assign to a key, if any. -/
def lastNum (k : String) (ds : List (List (String × PyValue))) : Option Rat :=
  lastNumAux k none (flatDicts ds)

/-- The diagnostic the truth loop emits for one entry, when any. -/
def diagOf (kv : String × PyValue) : Option String :=
  match torchTensor? kv.2 with
  | some _ => none
  | none => some (truthDiag kv.1 (pyTypeName kv.2))

/-- The scan is monotone in its accumulator: a later assignment wins, and
with no later assignment the accumulator survives. -/
theorem lastNumAux_acc (k : String) :
    ∀ (l : List (String × PyValue)) (acc : Option Rat),
      lastNumAux k acc l =
        (match lastNumAux k none l with
         | some r => some r
         | none => acc) := by
  intro l
  induction l with
  | nil => intro acc; rfl
  | cons kv kvs ih =>
    intro acc
    simp only [lastNumAux]
    rw [ih (if kv.1 = k then
        (match kv.2 with
          | .num r => some r
          | .str _ => acc)
        else acc),
      ih (if kv.1 = k then
        (match kv.2 with
          | .num r => some r
          | .str _ => none)
        else none)]
    cases lastNumAux k none kvs with
    | some r => rfl
    | none =>
      by_cases hk : kv.1 = k
      · cases kv.2 with
        | num r => simp [hk]
        | str s => simp [hk]
      · simp [hk]

/-- The truth loop over one dictionary distributes over concatenation. -/
theorem addTruthDict_append :
    ∀ (d1 d2 : List (String × PyValue)) (p : PygData × List String),
      addTruthDict p (d1 ++ d2) = addTruthDict (addTruthDict p d1) d2 := by
  intro d1
  induction d1 with
  | nil => intro d2 p; rfl
  | cons kv kvs ih =>
    intro d2 p
    obtain ⟨g, logs⟩ := p
    cases hkv : torchTensor? kv.2 with
    | some v => simp only [List.cons_append, addTruthDict, hkv]; exact ih d2 _
    | none => simp only [List.cons_append, addTruthDict, hkv]; exact ih d2 _

/-- The fold over the dictionaries equals one loop over their concatenation. -/
theorem add_truth_eq_flat :
    ∀ (ds : List (List (String × PyValue))) (p : PygData × List String),
      ds.foldl addTruthDict p = addTruthDict p (flatDicts ds) := by
  intro ds
  induction ds with
  | nil => intro p; rfl
  | cons d ds ih =>
    intro p
    simp only [List.foldl_cons, flatDicts]
    rw [ih (addTruthDict p d), addTruthDict_append]

/-- The diagnostics the loop appends, in order. -/
theorem addTruthDict_logs :
    ∀ (l : List (String × PyValue)) (g : PygData) (logs : List String),
      (addTruthDict (g, logs) l).2 = logs ++ l.filterMap diagOf := by
  intro l
  induction l with
  | nil => intro g logs; simp [addTruthDict]
  | cons kv kvs ih =>
    intro g logs
    cases hkv : torchTensor? kv.2 with
    | some v =>
      simp only [addTruthDict, hkv, List.filterMap_cons, diagOf]
      rw [ih]
    | none =>
      simp only [addTruthDict, hkv, List.filterMap_cons, diagOf]
      rw [ih]
      simp

/-- The field the loop leaves for a key: the last numeric assignment to it,
or the prior field when there is none. -/
theorem addTruthDict_getField (k : String) :
    ∀ (l : List (String × PyValue)) (g : PygData) (logs : List String),
      getField (addTruthDict (g, logs) l).1 k =
        (match lastNumAux k none l with
         | some r => some (.tensor0 r)
         | none => getField g k) := by
  intro l
  induction l with
  | nil => intro g logs; rfl
  | cons kv kvs ih =>
    intro g logs
    cases kv2 : kv.2 with
    | num r =>
      simp only [addTruthDict, torchTensor?, kv2]
      rw [ih]
      simp only [lastNumAux, kv2]
      rw [lastNumAux_acc k kvs (if kv.1 = k then some r else none)]
      cases lastNumAux k none kvs with
      | some r2 => rfl
      | none =>
        by_cases hk : kv.1 = k
        · subst hk
          simp [getField_setField_eq]
        · rw [getField_setField_ne g kv.1 k _ hk]
          simp [hk]
    | str s =>
      simp only [addTruthDict, torchTensor?, kv2]
      rw [ih]
      simp only [lastNumAux, kv2, ite_self]

/-- C6: _add_truth never fails the call: an entry whose value cannot become
a tensor is skipped, leaving the graph field as it was unless some other
entry sets it, and its diagnostic (naming the key and the value's type) is
emitted; every convertible entry is attached; on key collisions the last
convertible assignment in dictionary order wins. -/
theorem claim_C6_truth_attachment (g : PygData) (ds : List (List (String × PyValue)))
    (k : String) :
    getField (add_truth g ds).1 k =
      (match lastNum k ds with
       | some r => some (.tensor0 r)
       | none => getField g k) ∧
    (add_truth g ds).2 = (flatDicts ds).filterMap diagOf := by
  constructor
  · rw [add_truth, add_truth_eq_flat ds (g, [])]
    exact addTruthDict_getField k (flatDicts ds) g []
  · rw [add_truth, add_truth_eq_flat ds (g, [])]
    rw [addTruthDict_logs (flatDicts ds) g []]
    simp

/-- The node-feature loop never touches the "x" attribute. -/
theorem addFeaturesGo_getField_x :
    ∀ (ns : List String) (g : PygData) (idx : Nat),
      getField (addFeaturesGo g idx ns) "x" = getField g "x" := by
  intro ns
  induction ns with
  | nil => intro g idx; rfl
  | cons nm nms ih =>
    intro g idx
    by_cases hnm : nm = "x"
    · subst hnm
      have hne : ¬ ("x" ≠ "x") := fun h => h rfl
      simp only [addFeaturesGo]
      rw [if_neg hne]
      exact ih g (idx + 1)
    · simp only [addFeaturesGo, if_pos hnm]
      rw [ih]
      exact getField_setField_ne g nm "x" _ hnm

/-- A name occurring nowhere in the remaining list keeps its field. -/
theorem addFeaturesGo_getField_not_mem (nm : String) :
    ∀ (ns : List String) (g : PygData) (idx : Nat),
      (∀ j : Nat, ns[j]? ≠ some nm) →
      getField (addFeaturesGo g idx ns) nm = getField g nm := by
  intro ns
  induction ns with
  | nil => intro g idx _; rfl
  | cons nm0 nms ih =>
    intro g idx h
    have h0 : nm0 ≠ nm := by
      intro heq
      exact h 0 (by simp [heq])
    have ht : ∀ j : Nat, nms[j]? ≠ some nm := fun j => by
      have := h (j + 1)
      simpa using this
    by_cases hx : nm0 = "x"
    · have hne : ¬ (nm0 ≠ "x") := fun h2 => h2 hx
      simp only [addFeaturesGo]
      rw [if_neg hne]
      exact ih g (idx + 1) ht
    · simp only [addFeaturesGo, if_pos hx]
      rw [ih _ (idx + 1) ht]
      exact getField_setField_ne g nm0 nm _ h0

/-- The loop attaches each non-reserved name, at its last occurrence, to
the column of the node tensor at that position. -/
theorem addFeaturesGo_attaches (nm : String) :
    ∀ (ns : List String) (g : PygData) (idx : Nat) (i : Nat),
      ns[i]? = some nm → nm ≠ "x" →
      (∀ j, i < j → ns[j]? ≠ some nm) →
      getField (addFeaturesGo g idx ns) nm =
        some (.tensor1 (column (xMat g) (idx + i))) := by
  intro ns
  induction ns with
  | nil => intro g idx i h _ _; simp at h
  | cons nm0 nms ih =>
    intro g idx i h hx hlater
    cases i with
    | zero =>
      simp only [List.getElem?_cons_zero, Option.some.injEq] at h
      subst h
      simp only [addFeaturesGo, if_pos hx]
      have hrest : ∀ j : Nat, nms[j]? ≠ some nm0 := fun j => by
        have := hlater (j + 1) (Nat.succ_pos j)
        simpa using this
      rw [addFeaturesGo_getField_not_mem nm0 nms _ (idx + 1) hrest]
      rw [getField_setField_eq]
      simp
    | succ n =>
      simp only [List.getElem?_cons_succ] at h
      have hlater2 : ∀ j, n < j → nms[j]? ≠ some nm := fun j hj => by
        have := hlater (j + 1) (Nat.succ_lt_succ hj)
        simpa using this
      by_cases h0 : nm0 = "x"
      · have hne : ¬ (nm0 ≠ "x") := fun h2 => h2 h0
        simp only [addFeaturesGo]
        rw [if_neg hne]
        rw [ih g (idx + 1) n h hx hlater2]
        have : idx + 1 + n = idx + (n + 1) := by omega
        rw [this]
      · simp only [addFeaturesGo, if_pos h0]
        rw [ih _ (idx + 1) n h hx hlater2]
        have hxm : xMat (setField g nm0 (.tensor1 (column (xMat g) idx))) = xMat g := by
          unfold xMat
          rw [getField_setField_ne g nm0 "x" _ h0]
        rw [hxm]
        have : idx + 1 + n = idx + (n + 1) := by omega
        rw [this]

/-- C7: _add_features_individually never writes the reserved name "x" as an
individual field, so the graph's "x" attribute after the call is exactly
what it was before (the full node feature tensor); every other node feature
name is attached as its own detached column of the node tensor, taken at
its position in the name list. -/
theorem claim_C7_reserved_x (g : PygData) (ns : List String) :
    getField (add_features_individually g ns) "x" = getField g "x" ∧
    (∀ (i : Nat) (nm : String), ns[i]? = some nm → nm ≠ "x" →
      (∀ j, i < j → ns[j]? ≠ some nm) →
      getField (add_features_individually g ns) nm =
        some (.tensor1 (column (xMat g) i))) := by
  constructor
  · unfold add_features_individually
    rw [addFeaturesGo_getField_x]
    exact getField_setField_ne g "features" "x" _ (by simp)
  · intro i nm h hx hlater
    unfold add_features_individually
    rw [addFeaturesGo_attaches nm ns _ 0 i h hx hlater]
    have hxm : xMat (setField g "features" (.strList ns)) = xMat g := by
      unfold xMat
      rw [getField_setField_ne g "features" "x" _ (by simp)]
    rw [hxm]
    simp

/-- A graph whose node tensor is a concrete 2 x 2 matrix. -/
def gX : PygData := setField emptyGraph "x" (.tensor2 .float [[1, 2], [3, 4]])

theorem claim_C7_witness :
    getField (add_features_individually gX ["x", "f2"]) "x" =
        some (.tensor2 .float [[1, 2], [3, 4]]) ∧
    getField (add_features_individually gX ["x", "f2"]) "f2" =
        some (.tensor1 [2, 4]) :=
  ⟨by rw [(claim_C7_reserved_x gX ["x", "f2"]).1]; rfl,
   by
     rw [(claim_C7_reserved_x gX ["x", "f2"]).2 1 "f2" rfl (by decide)
       (fun j hj => by
         rw [List.getElem?_eq_none_iff.mpr hj]
         simp)]
     rfl⟩

end Graphnet
